import Mathlib

/-!
Verification development for the resume screener web application
(src/app.py). The Flask routing layer, sqlite3, fitz (PDF parsing) and the
sentence-transformers model are external collaborators; the handlers and
helper functions of app.py are embedded below as pure functions over an
explicit database, disk and connection state.
-/

namespace ResumeScreener

/-- Python str.lower, modelled character-wise (app.py calls
resume_text.lower() on the extracted text). -/
def pyLower (s : String) : String := ⟨s.data.map Char.toLower⟩

/-- Python substring membership, needle in hay, as used by the skill scan
and by the error-marker check of the match loop. -/
def containsStr (hay needle : String) : Bool := decide (needle.data <:+: hay.data)

/-- Helper for Python str.title: the boolean records whether the previous
character was alphabetic. -/
def pyTitleAux : List Char → Bool → List Char
  | [], _ => []
  | c :: cs, prevAlpha =>
    if c.isAlpha then
      (if prevAlpha then c.toLower else c.toUpper) :: pyTitleAux cs true
    else
      c :: pyTitleAux cs false

/-- Python str.title, as called by extract_skills via skill.title(): the
first letter of every alphabetic run is upper-cased, the rest lower-cased. -/
def pyTitle (s : String) : String := ⟨pyTitleAux s.data false⟩

/-- Python round(x, 2) on rationals: round to the nearest multiple of 1/100.
Python rounds exact halves to even while Mathlib round rounds them up; the
two agree everywhere else, and the claims below depend only on the bounds
of the result, on which the two rounding modes agree. -/
def round2 (q : ℚ) : ℚ := ((round (q * 100) : ℤ) : ℚ) / 100

/-- Modelled from the spec: the sentence-transformers embedding model is an
external collaborator (an opaque scoring oracle). Per the spec, the local
strategy computes embeddings of both texts and returns their cosine
similarity, a scalar in the interval from -1 to 1. -/
structure ScoringOracle where
  score : String → String → ℚ
  neg_one_le : ∀ r j, -1 ≤ score r j
  le_one : ∀ r j, score r j ≤ 1

/-- calculate_similarity (app.py lines 48-51): encodes both texts with the
oracle model and returns their cosine similarity. -/
def calculate_similarity (o : ScoringOracle) (resume_text jd_text : String) : ℚ :=
  o.score resume_text jd_text

deriving instance DecidableEq for Except

/-- An uploaded file part. fitz is external, so the outcome of parsing the
bytes saved at the transient path is carried by the model: ok text when the
pages of the document concatenate to text, error e when fitz.open or page
iteration raises an exception rendered as e. -/
structure FileUpload where
  filename : String
  parsed : Except String String
deriving DecidableEq

/-- extract_text_from_pdf (app.py lines 41-46): returns the concatenated
page text, or the sentinel string built from the exception message when the
document cannot be opened or parsed. It never raises. -/
def extract_text_from_pdf (f : FileUpload) : String :=
  match f.parsed with
  | .ok text => text
  | .error e => "Error reading PDF: " ++ e

/-- SKILLS_LIST (app.py line 54). -/
def SKILLS_LIST : List String :=
  ["python", "java", "c++", "javascript", "html", "css", "sql", "git",
   "react", "vue", "angular", "aws", "azure", "docker", "kubernetes",
   "tensorflow", "pytorch", "scikit-learn", "pandas", "data analysis",
   "project management", "agile", "scrum", "team leadership"]

/-- The skills matched by extract_skills (app.py lines 53-58). spaCy doc
text round-trips its input, so the membership test is substring containment
of each keyword in the lower-cased resume text. The code collects matches
into a Python set whose iteration order is unspecified; the model uses the
vocabulary order, which lists each matched canonical name exactly once. -/
def matchedSkills (resume_text : String) : List String :=
  (SKILLS_LIST.filter (fun s => containsStr (pyLower resume_text) s)).map pyTitle

/-- extract_skills (app.py lines 53-58): the comma-joined matched skills. -/
def extract_skills (resume_text : String) : String :=
  String.intercalate ", " (matchedSkills resume_text)

/-- A row of the job_descriptions table. -/
structure Job where
  id : Nat
  title : String
  description : String
deriving DecidableEq

/-- A row of the candidates table. timestamp abstracts datetime.now. -/
structure Candidate where
  id : Nat
  filename : String
  match_percentage : ℚ
  skills : String
  timestamp : Nat
  job_id : Nat
deriving DecidableEq

/-- The sqlite database: the two tables of init_db plus the AUTOINCREMENT
counters for their integer primary keys. -/
structure DB where
  jobs : List Job
  candidates : List Candidate
  nextJobId : Nat
  nextCandId : Nat
deriving DecidableEq

/-- A sqlite3 connection as Python uses it in the match handler: the first
INSERT opens an implicit transaction, staged rows become visible in the
database only at conn.commit(), and closing the connection with the
transaction still open rolls the staged rows back. -/
structure Conn where
  committed : DB
  pending : List Candidate
  nextCid : Nat
deriving DecidableEq

/-- sqlite3.connect: no transaction open yet. -/
def Conn.openConn (db : DB) : Conn := ⟨db, [], db.nextCandId⟩

/-- The INSERT INTO candidates statement (app.py lines 168-171): stages one
row in the open transaction. -/
def Conn.insertCandidate (c : Conn) (filename : String) (mp : ℚ)
    (skills : String) (timestamp : Nat) (job_id : Nat) : Conn :=
  { c with
    pending := c.pending ++ [⟨c.nextCid, filename, mp, skills, timestamp, job_id⟩],
    nextCid := c.nextCid + 1 }

/-- conn.commit() (app.py line 176): every staged row becomes visible in
the database at once. -/
def Conn.commit (c : Conn) : Conn :=
  ⟨{ c.committed with
     candidates := c.committed.candidates ++ c.pending,
     nextCandId := c.nextCid }, [], c.nextCid⟩

/-- Closing the connection without reaching conn.commit, as happens when an
unhandled exception escapes the match handler: sqlite rolls the open
transaction back and the committed database is unchanged. -/
def Conn.closeNoCommit (c : Conn) : DB := c.committed

/-- index (app.py lines 62-67): SELECT star FROM job_descriptions ORDER BY
title. sqlite compares TEXT values bytewise under the default BINARY
collation, which on valid UTF-8 agrees with the codepoint order used by
the String order here; rows with equal titles are returned in an
unspecified order, modelled as the stable mergeSort order. -/
def index (db : DB) : List Job :=
  db.jobs.mergeSort (fun a b => decide (a.title ≤ b.title))

/-- The rendered outcome of the rankings route. -/
inductive RankingsView where
  | notFound
  | page (job : Job) (candidates : List Candidate)
deriving DecidableEq

/-- view_rankings (app.py lines 69-76): fetch the job, fetch its candidates
ordered by match_percentage descending, and render 404 when the job row is
absent. -/
def view_rankings (db : DB) (job_id : Nat) : RankingsView :=
  match db.jobs.find? (fun j => j.id == job_id) with
  | none => .notFound
  | some job =>
      .page job
        ((db.candidates.filter (fun c => c.job_id == job_id)).mergeSort
          (fun a b => decide (b.match_percentage ≤ a.match_percentage)))

/-- add_jd POST branch (app.py lines 78-86): INSERT the new job row and
commit. -/
def add_jd (db : DB) (title description : String) : DB :=
  { db with
    jobs := db.jobs ++ [⟨db.nextJobId, title, description⟩],
    nextJobId := db.nextJobId + 1 }

/-- The redirect target of the two delete routes. -/
inductive Redirect where
  | toRankings (job_id : Nat)
  | toIndex
deriving DecidableEq

/-- delete_jd (app.py lines 88-94): DELETE the candidates of the job, then
the job row itself, commit, and redirect to the job list. -/
def delete_jd (db : DB) (job_id : Nat) : DB × Redirect :=
  ({ db with
     candidates := db.candidates.filter (fun c => !(c.job_id == job_id)),
     jobs := db.jobs.filter (fun j => !(j.id == job_id)) }, .toIndex)

/-- delete_candidate (app.py lines 97-120): look up the job_id of the row,
DELETE the row, and redirect to that ranking page, or to the job list when
the row was absent. -/
def delete_candidate (db : DB) (candidate_id : Nat) : DB × Redirect :=
  let db' : DB :=
    { db with candidates := db.candidates.filter (fun c => !(c.id == candidate_id)) }
  match db.candidates.find? (fun c => c.id == candidate_id) with
  | some c => (db', .toRankings c.job_id)
  | none => (db', .toIndex)

/-- The state threaded through the for loop of the match handler: the open
connection, the set of transient paths currently on disk, and
processed_count. -/
structure LoopState where
  conn : Conn
  disk : List String
  processed : Nat
deriving DecidableEq

/-- One iteration of the for resume_file in resume_files loop (app.py
lines 147-174): skip empty filenames; save the upload to
uploads/filename; extract text; on an extracted text containing the error
marker remove the file and continue; otherwise score, round, tag skills,
stage the INSERT, remove the file and increment processed_count. -/
def matchStep (o : ScoringOracle) (job_description : String) (jd_id : Nat)
    (time : Nat) (s : LoopState) (f : FileUpload) : LoopState :=
  if f.filename = "" then s
  else
    let resume_path := "uploads/" ++ f.filename
    let disk1 := resume_path :: s.disk
    let resume_text := extract_text_from_pdf f
    if containsStr resume_text "Error" then
      { s with disk := disk1.erase resume_path }
    else
      let similarity_score := calculate_similarity o resume_text job_description
      let match_percentage := round2 (similarity_score * 100)
      let extracted_skills := extract_skills resume_text
      { conn := s.conn.insertCandidate f.filename match_percentage
          extracted_skills time jd_id,
        disk := disk1.erase resume_path,
        processed := s.processed + 1 }

/-- The JSON outcome of the match route. -/
inductive MatchResp where
  | badRequest (error : String)
  | notFound (error : String)
  | ok (message : String)
deriving DecidableEq

/-- The full effect of one match request. -/
structure MatchOutcome where
  resp : MatchResp
  db : DB
  disk : List String
deriving DecidableEq

/-- match (app.py lines 125-179). jd_id models request.form.get, with none
covering both a missing and an empty selector (both falsy in Python); the
sqlite parameter comparison against the INTEGER id column is modelled on
Nat. time abstracts datetime.now. The single conn.commit() after the loop
publishes every staged insert at once. -/
def matchEndpoint (o : ScoringOracle) (time : Nat) (db : DB)
    (disk : List String) (resume_files : List FileUpload)
    (jd_id : Option Nat) : MatchOutcome :=
  if resume_files = [] ∨
      (resume_files.length = 1 ∧
        resume_files.head?.map FileUpload.filename = some "") then
    ⟨.badRequest "No resume files uploaded", db, disk⟩
  else
    match jd_id with
    | none => ⟨.badRequest "No job description selected", db, disk⟩
    | some jid =>
      match db.jobs.find? (fun j => j.id == jid) with
      | none => ⟨.notFound "Job description not found", db, disk⟩
      | some jd_row =>
        let s := resume_files.foldl
          (matchStep o jd_row.description jid time) ⟨Conn.openConn db, disk, 0⟩
        let conn := s.conn.commit
        ⟨.ok ("Successfully processed " ++ toString s.processed ++ " of " ++
              toString resume_files.length ++ " resumes."),
         conn.committed, s.disk⟩

/-- A run of the match handler in which an unhandled exception (for
example inside calculate_similarity) interrupts the loop after the first k
files: the request fails, conn.commit() on line 176 is never reached, and
the connection is closed with the transaction still open. The 400 and 404
checks are assumed already passed, job_description being the description of
the located job row. -/
def matchAborted (o : ScoringOracle) (time : Nat) (db : DB)
    (disk : List String) (resume_files : List FileUpload) (jid : Nat)
    (job_description : String) (k : Nat) : DB :=
  let s := (resume_files.take k).foldl
    (matchStep o job_description jid time) ⟨Conn.openConn db, disk, 0⟩
  s.conn.closeNoCommit

/-- The referential-integrity invariant of the schema: every candidate row
references an existing job row. -/
def Invariant (db : DB) : Prop :=
  ∀ c ∈ db.candidates, ∃ j ∈ db.jobs, j.id = c.job_id

/-- A file is handled by the body of the match loop exactly when its
filename is non-empty and its extracted text does not contain the error
marker. -/
def goodFile (f : FileUpload) : Bool :=
  (!(f.filename == "")) && (!(containsStr (extract_text_from_pdf f) "Error"))

/-- A file that the claims call cleanly parseable: extraction succeeds and
the extracted text does not happen to contain the error marker. -/
def cleanParse (f : FileUpload) : Bool :=
  f.parsed.isOk && (!(containsStr (extract_text_from_pdf f) "Error"))

/-- The oracle that always returns similarity 0, used to instantiate
universally quantified theorems at a concrete input. -/
def zeroOracle : ScoringOracle :=
  ⟨fun _ _ => 0, fun _ _ => by norm_num, fun _ _ => by norm_num⟩

/-- The oracle that always returns cosine similarity -1, the lowest value
the spec allows for the local strategy. -/
def negOracle : ScoringOracle :=
  ⟨fun _ _ => -1, fun _ _ => by norm_num, fun _ _ => by norm_num⟩

/-- A one-job database used to instantiate theorems at concrete inputs. -/
def exDb : DB := ⟨[⟨1, "t", "desc"⟩], [], 2, 0⟩

/-! Helper lemmas about rounding. -/

lemma round_mono2 {x y : ℚ} (h : x ≤ y) : round x ≤ round y := by
  rw [round_eq, round_eq]
  exact Int.floor_le_floor (by linarith)

lemma round2_bounds (q : ℚ) (h1 : -100 ≤ q) (h2 : q ≤ 100) :
    -100 ≤ round2 q ∧ round2 q ≤ 100 := by
  have hlo : ((-10000 : ℤ) : ℚ) ≤ q * 100 := by push_cast; linarith
  have hhi : q * 100 ≤ ((10000 : ℤ) : ℚ) := by push_cast; linarith
  have h3 : (-10000 : ℤ) ≤ round (q * 100) := by
    calc (-10000 : ℤ) = round (((-10000 : ℤ) : ℚ)) := (round_intCast _).symm
    _ ≤ round (q * 100) := round_mono2 hlo
  have h4 : round (q * 100) ≤ (10000 : ℤ) := by
    calc round (q * 100) ≤ round (((10000 : ℤ) : ℚ)) := round_mono2 hhi
    _ = 10000 := round_intCast _
  have h3' : ((-10000 : ℤ) : ℚ) ≤ ((round (q * 100) : ℤ) : ℚ) := by
    exact_mod_cast h3
  have h4' : ((round (q * 100) : ℤ) : ℚ) ≤ ((10000 : ℤ) : ℚ) := by
    exact_mod_cast h4
  constructor
  · rw [round2, le_div_iff₀ (by norm_num : (0 : ℚ) < 100)]
    push_cast at h3' ⊢
    linarith
  · rw [round2, div_le_iff₀ (by norm_num : (0 : ℚ) < 100)]
    push_cast at h4' ⊢
    linarith

/-! Helper lemmas about single loop iterations. -/

lemma marker_of_error (f : FileUpload) (e : String)
    (hf : f.parsed = Except.error e) :
    containsStr (extract_text_from_pdf f) "Error" = true := by
  have hx : extract_text_from_pdf f = "Error reading PDF: " ++ e := by
    simp [extract_text_from_pdf, hf]
  rw [hx, containsStr, decide_eq_true_eq]
  refine ⟨[], " reading PDF: ".data ++ e.data, ?_⟩
  rw [String.data_append]
  have hsplit : "Error reading PDF: ".data =
      "Error".data ++ " reading PDF: ".data := by decide
  rw [hsplit]
  simp [List.append_assoc]

lemma matchStep_skip_empty (o : ScoringOracle) (jd : String) (jid time : Nat)
    (s : LoopState) (f : FileUpload) (hname : f.filename = "") :
    matchStep o jd jid time s f = s := by
  simp [matchStep, hname]

lemma matchStep_skip_marker (o : ScoringOracle) (jd : String) (jid time : Nat)
    (s : LoopState) (f : FileUpload)
    (hm : containsStr (extract_text_from_pdf f) "Error" = true) :
    matchStep o jd jid time s f = s := by
  by_cases hname : f.filename = ""
  · simp [matchStep, hname]
  · simp [matchStep, hname, hm, List.erase_cons_head]

lemma matchStep_insert (o : ScoringOracle) (jd : String) (jid time : Nat)
    (s : LoopState) (f : FileUpload) (hname : ¬ f.filename = "")
    (hm : containsStr (extract_text_from_pdf f) "Error" = false) :
    matchStep o jd jid time s f =
      { conn := s.conn.insertCandidate f.filename
          (round2 (o.score (extract_text_from_pdf f) jd * 100))
          (extract_skills (extract_text_from_pdf f)) time jid,
        disk := s.disk,
        processed := s.processed + 1 } := by
  simp [matchStep, hname, hm, List.erase_cons_head, calculate_similarity]

lemma matchStep_committed (o : ScoringOracle) (jd : String) (jid time : Nat)
    (s : LoopState) (f : FileUpload) :
    (matchStep o jd jid time s f).conn.committed = s.conn.committed := by
  by_cases hname : f.filename = ""
  · rw [matchStep_skip_empty o jd jid time s f hname]
  · by_cases hm : containsStr (extract_text_from_pdf f) "Error" = true
    · rw [matchStep_skip_marker o jd jid time s f hm]
    · rw [matchStep_insert o jd jid time s f hname (by simpa using hm)]
      rfl

lemma matchStep_counts (o : ScoringOracle) (jd : String) (jid time : Nat)
    (s : LoopState) (f : FileUpload) :
    (matchStep o jd jid time s f).processed =
      s.processed + (if goodFile f then 1 else 0) ∧
    (matchStep o jd jid time s f).conn.pending.length =
      s.conn.pending.length + (if goodFile f then 1 else 0) := by
  by_cases hname : f.filename = ""
  · rw [matchStep_skip_empty o jd jid time s f hname]
    simp [goodFile, hname]
  · by_cases hm : containsStr (extract_text_from_pdf f) "Error" = true
    · rw [matchStep_skip_marker o jd jid time s f hm]
      simp [goodFile, hname, hm]
    · rw [matchStep_insert o jd jid time s f hname (by simpa using hm)]
      simp [goodFile, hname, hm, Conn.insertCandidate]

lemma matchStep_pending_mem (o : ScoringOracle) (jd : String) (jid time : Nat)
    (s : LoopState) (f : FileUpload) (c : Candidate)
    (hc : c ∈ (matchStep o jd jid time s f).conn.pending) :
    c ∈ s.conn.pending ∨
      (c.job_id = jid ∧ -100 ≤ c.match_percentage ∧ c.match_percentage ≤ 100) := by
  by_cases hname : f.filename = ""
  · rw [matchStep_skip_empty o jd jid time s f hname] at hc
    exact Or.inl hc
  · by_cases hm : containsStr (extract_text_from_pdf f) "Error" = true
    · rw [matchStep_skip_marker o jd jid time s f hm] at hc
      exact Or.inl hc
    · rw [matchStep_insert o jd jid time s f hname (by simpa using hm)] at hc
      simp only [Conn.insertCandidate, List.mem_append, List.mem_singleton] at hc
      rcases hc with hc | hc
      · exact Or.inl hc
      · subst hc
        refine Or.inr ⟨rfl, ?_⟩
        exact round2_bounds _
          (by linarith [o.neg_one_le (extract_text_from_pdf f) jd])
          (by linarith [o.le_one (extract_text_from_pdf f) jd])

/-! Helper lemmas about the whole loop. -/

lemma foldl_committed (o : ScoringOracle) (jd : String) (jid time : Nat)
    (files : List FileUpload) :
    ∀ s : LoopState,
      (files.foldl (matchStep o jd jid time) s).conn.committed =
        s.conn.committed := by
  induction files with
  | nil => intro s; rfl
  | cons f rest ih =>
    intro s
    rw [List.foldl_cons, ih, matchStep_committed]

lemma foldl_counts (o : ScoringOracle) (jd : String) (jid time : Nat)
    (files : List FileUpload) :
    ∀ s : LoopState,
      (files.foldl (matchStep o jd jid time) s).processed =
        s.processed + files.countP goodFile ∧
      (files.foldl (matchStep o jd jid time) s).conn.pending.length =
        s.conn.pending.length + files.countP goodFile := by
  induction files with
  | nil => intro s; simp
  | cons f rest ih =>
    intro s
    obtain ⟨h1, h2⟩ := matchStep_counts o jd jid time s f
    obtain ⟨ih1, ih2⟩ := ih (matchStep o jd jid time s f)
    rw [List.foldl_cons, List.countP_cons]
    constructor
    · rw [ih1, h1]
      by_cases hg : goodFile f = true <;> simp [hg] <;> omega
    · rw [ih2, h2]
      by_cases hg : goodFile f = true <;> simp [hg] <;> omega

lemma foldl_pending_mem (o : ScoringOracle) (jd : String) (jid time : Nat)
    (files : List FileUpload) :
    ∀ s : LoopState, ∀ c : Candidate,
      c ∈ (files.foldl (matchStep o jd jid time) s).conn.pending →
      c ∈ s.conn.pending ∨
        (c.job_id = jid ∧ -100 ≤ c.match_percentage ∧ c.match_percentage ≤ 100) := by
  induction files with
  | nil => intro s c hc; exact Or.inl hc
  | cons f rest ih =>
    intro s c hc
    rw [List.foldl_cons] at hc
    rcases ih (matchStep o jd jid time s f) c hc with hc' | hc'
    · exact matchStep_pending_mem o jd jid time s f c hc'
    · exact Or.inr hc'

lemma goodFile_eq_cleanParse (f : FileUpload) (hname : f.filename ≠ "") :
    goodFile f = cleanParse f := by
  cases hp : f.parsed with
  | error e =>
    simp [goodFile, cleanParse, hname, marker_of_error f e hp, hp]
  | ok t =>
    have h1 : (f.filename == "") = false := beq_eq_false_iff_ne.mpr hname
    simp [goodFile, cleanParse, h1, hp, Except.isOk, Except.toBool]

/-- The success branch of the match handler, written out: when the file
check passes and the job row is found, the response reports the processed
count, and the single commit appends every staged row to the table at
once. -/
lemma matchEndpoint_success (o : ScoringOracle) (time : Nat) (db : DB)
    (disk : List String) (files : List FileUpload) (jid : Nat) (job : Job)
    (hchk : ¬ (files = [] ∨ (files.length = 1 ∧
        files.head?.map FileUpload.filename = some "")))
    (hfind : db.jobs.find? (fun j => j.id == jid) = some job) :
    matchEndpoint o time db disk files (some jid) =
      ⟨.ok ("Successfully processed " ++
            toString ((files.foldl (matchStep o job.description jid time)
              ⟨Conn.openConn db, disk, 0⟩).processed) ++ " of " ++
            toString files.length ++ " resumes."),
       { db with
         candidates := db.candidates ++
           (files.foldl (matchStep o job.description jid time)
             ⟨Conn.openConn db, disk, 0⟩).conn.pending,
         nextCandId := (files.foldl (matchStep o job.description jid time)
             ⟨Conn.openConn db, disk, 0⟩).conn.nextCid },
       (files.foldl (matchStep o job.description jid time)
         ⟨Conn.openConn db, disk, 0⟩).disk⟩ := by
  have hcom : (files.foldl (matchStep o job.description jid time)
      ⟨Conn.openConn db, disk, 0⟩).conn.committed = db := by
    rw [foldl_committed]
    rfl
  rw [matchEndpoint, if_neg hchk]
  simp only [hfind, Conn.commit, hcom]

/-- Claim C1, as the spec states it, fails on the code: the local strategy
applies no clamping, so with a resume and job whose embeddings have cosine
similarity -1 (the extreme the spec itself allows), the stored
matchPercentage is round(-1 * 100, 2) = -100, outside [0, 100]. -/
theorem c1_counterexample :
    (matchEndpoint negOracle 0 exDb [] [⟨"r.pdf", Except.ok "hello world"⟩]
        (some 1)).db.candidates.map Candidate.match_percentage = [-100] ∧
    ¬ ((0 : ℚ) ≤ -100 ∧ (-100 : ℚ) ≤ 100) := by
  constructor
  · simp [matchEndpoint, matchStep, exDb, negOracle, extract_text_from_pdf,
      containsStr, calculate_similarity, extract_skills, matchedSkills,
      pyLower, Conn.openConn, Conn.insertCandidate, Conn.commit, round2]
    norm_num [round_eq]
    decide
  · norm_num

/-- Claim C1 (amended): for every (resumeText, jobDescriptionText) pair
scored through the local strategy by a match request, the stored
matchPercentage, round(similarity * 100, 2) applied to the score returned
by calculate_similarity, lies in the interval [-100, 100]: every candidate
row a match request adds to the table has match_percentage in that range. -/
theorem c1_match_percentage_bounds (o : ScoringOracle) (time : Nat) (db : DB)
    (disk : List String) (files : List FileUpload) (jdid : Option Nat)
    (c : Candidate)
    (hc : c ∈ (matchEndpoint o time db disk files jdid).db.candidates)
    (hnew : c ∉ db.candidates) :
    -100 ≤ c.match_percentage ∧ c.match_percentage ≤ 100 := by
  by_cases hchk : files = [] ∨ (files.length = 1 ∧
      files.head?.map FileUpload.filename = some "")
  · rw [matchEndpoint.eq_def, if_pos hchk] at hc
    exact absurd hc hnew
  · cases jdid with
    | none =>
      rw [matchEndpoint.eq_def, if_neg hchk] at hc
      exact absurd hc hnew
    | some jid =>
      cases hfind : db.jobs.find? (fun j => j.id == jid) with
      | none =>
        rw [matchEndpoint.eq_def, if_neg hchk] at hc
        simp only [hfind] at hc
        exact absurd hc hnew
      | some job =>
        rw [matchEndpoint_success o time db disk files jid job hchk hfind] at hc
        simp only [List.mem_append] at hc
        rcases hc with hc | hc
        · exact absurd hc hnew
        · rcases foldl_pending_mem o job.description jid time files
            ⟨Conn.openConn db, disk, 0⟩ c hc with h0 | h
          · simp [Conn.openConn] at h0
          · exact h.2

/-- Witness for the amended claim C1: a concrete run with the constant -1
oracle stores the row with matchPercentage -100, which the theorem brackets
in [-100, 100]. -/
theorem c1_match_percentage_bounds_witness :
    -100 ≤ (Candidate.mk 0 "r.pdf" (-100) "" 0 1).match_percentage ∧
    (Candidate.mk 0 "r.pdf" (-100) "" 0 1).match_percentage ≤ 100 :=
  c1_match_percentage_bounds negOracle 0 exDb []
    [⟨"r.pdf", Except.ok "hello world"⟩] (some 1) _
    (by
      simp [matchEndpoint, matchStep, exDb, negOracle, extract_text_from_pdf,
        containsStr, calculate_similarity, extract_skills, matchedSkills,
        pyLower, Conn.openConn, Conn.insertCandidate, Conn.commit, round2]
      norm_num [round_eq]
      decide)
    (by decide)

/-- Claim C2, as stated, fails on the code: a parseable document whose
legitimate text contains the substring Error is misclassified as an
extraction failure by the marker check on line 159. With N = 1 parseable
and M = 0 unparseable documents, no candidate row is inserted and the
response reports 0 processed of 1, not 1 of 1. -/
theorem c2_counterexample :
    (FileUpload.mk "r.pdf" (Except.ok "Error handling in Java")).parsed.isOk
      = true ∧
    (matchEndpoint zeroOracle 0 exDb []
        [⟨"r.pdf", Except.ok "Error handling in Java"⟩]
        (some 1)).db.candidates.length = 0 ∧
    (matchEndpoint zeroOracle 0 exDb []
        [⟨"r.pdf", Except.ok "Error handling in Java"⟩] (some 1)).resp =
      MatchResp.ok "Successfully processed 0 of 1 resumes." := by decide

/-- Claim C2 (amended): for every match request with a valid jobId whose
uploaded documents all have non-empty filenames and comprise N documents
that parse and whose extracted text does not contain the substring Error,
and M documents that fail extraction or whose text contains that marker,
exactly N candidate rows are inserted and the 200 response reports N
processed of (N+M) submitted. -/
theorem c2_processed_counts (o : ScoringOracle) (time : Nat) (db : DB)
    (disk : List String) (files : List FileUpload) (jid : Nat) (job : Job)
    (hfind : db.jobs.find? (fun j => j.id == jid) = some job)
    (hne : files ≠ [])
    (hnames : ∀ f ∈ files, f.filename ≠ "") :
    (matchEndpoint o time db disk files (some jid)).db.candidates.length =
      db.candidates.length + files.countP cleanParse ∧
    (matchEndpoint o time db disk files (some jid)).resp =
      MatchResp.ok ("Successfully processed " ++
        toString (files.countP cleanParse) ++ " of " ++
        toString files.length ++ " resumes.") := by
  have hchk : ¬ (files = [] ∨ (files.length = 1 ∧
      files.head?.map FileUpload.filename = some "")) := by
    rintro (h | ⟨hlen, hhead⟩)
    · exact hne h
    · obtain ⟨f, rfl⟩ := List.length_eq_one.mp hlen
      simp only [List.head?_cons, Option.map_some'] at hhead
      exact hnames f (List.mem_singleton_self f) (Option.some.inj hhead)
  have hcnt : files.countP goodFile = files.countP cleanParse :=
    List.countP_congr (fun f hf => by
      rw [goodFile_eq_cleanParse f (hnames f hf)])
  obtain ⟨hproc, hpend⟩ := foldl_counts o job.description jid time files
    ⟨Conn.openConn db, disk, 0⟩
  have hp2 : (files.foldl (matchStep o job.description jid time)
      ⟨Conn.openConn db, disk, 0⟩).conn.pending.length =
      files.countP cleanParse := by
    rw [hpend, hcnt]
    simp [Conn.openConn]
  have hp3 : (files.foldl (matchStep o job.description jid time)
      ⟨Conn.openConn db, disk, 0⟩).processed = files.countP cleanParse := by
    rw [hproc, hcnt]
    simp
  rw [matchEndpoint_success o time db disk files jid job hchk hfind]
  constructor
  · simp [List.length_append, hp2]
  · simp [hp3]

/-- Witness for the amended claim C2: one clean resume and one failing
resume give one row and the message 1 of 2. -/
theorem c2_processed_counts_witness :
    (matchEndpoint zeroOracle 0 exDb []
        [⟨"a.pdf", Except.ok "python"⟩, ⟨"b.pdf", Except.error "boom"⟩]
        (some 1)).db.candidates.length =
      exDb.candidates.length +
        List.countP cleanParse
          [⟨"a.pdf", Except.ok "python"⟩, ⟨"b.pdf", Except.error "boom"⟩] ∧
    (matchEndpoint zeroOracle 0 exDb []
        [⟨"a.pdf", Except.ok "python"⟩, ⟨"b.pdf", Except.error "boom"⟩]
        (some 1)).resp =
      MatchResp.ok ("Successfully processed " ++
        toString (List.countP cleanParse
          [⟨"a.pdf", Except.ok "python"⟩, ⟨"b.pdf", Except.error "boom"⟩]) ++
        " of " ++
        toString (List.length
          [(⟨"a.pdf", Except.ok "python"⟩ : FileUpload),
           ⟨"b.pdf", Except.error "boom"⟩]) ++ " resumes.") :=
  c2_processed_counts zeroOracle 0 exDb []
    [⟨"a.pdf", Except.ok "python"⟩, ⟨"b.pdf", Except.error "boom"⟩] 1
    ⟨1, "t", "desc"⟩ (by decide) (by decide) (by decide)

/-- Claim C3: a document that cannot be opened or parsed makes
extract_text_from_pdf return the sentinel error-bearing string (the model
is a total function, so nothing is raised); the match loop treats the
marker-bearing text as a per-document failure: the iteration leaves the
whole loop state unchanged (the transient file was saved and then removed,
no row was staged, processed_count kept), and processing continues with the
remaining documents. -/
theorem c3_extraction_failure (o : ScoringOracle) (jd : String)
    (jid time : Nat) (f : FileUpload) (e : String) (rest : List FileUpload)
    (s : LoopState) (hf : f.parsed = Except.error e) :
    extract_text_from_pdf f = "Error reading PDF: " ++ e ∧
    containsStr (extract_text_from_pdf f) "Error" = true ∧
    matchStep o jd jid time s f = s ∧
    List.foldl (matchStep o jd jid time) s (f :: rest) =
      List.foldl (matchStep o jd jid time) s rest := by
  have hm := marker_of_error f e hf
  have hskip := matchStep_skip_marker o jd jid time s f hm
  refine ⟨by simp [extract_text_from_pdf, hf], hm, hskip, ?_⟩
  rw [List.foldl_cons, hskip]

/-- Witness for claim C3: a concrete unparseable upload is skipped and the
loop state survives unchanged. -/
theorem c3_extraction_failure_witness :
    extract_text_from_pdf ⟨"bad.pdf", Except.error "boom"⟩ =
      "Error reading PDF: " ++ "boom" ∧
    containsStr (extract_text_from_pdf ⟨"bad.pdf", Except.error "boom"⟩)
      "Error" = true ∧
    matchStep zeroOracle "desc" 1 0 ⟨Conn.openConn exDb, [], 0⟩
      ⟨"bad.pdf", Except.error "boom"⟩ = ⟨Conn.openConn exDb, [], 0⟩ ∧
    List.foldl (matchStep zeroOracle "desc" 1 0) ⟨Conn.openConn exDb, [], 0⟩
        [⟨"bad.pdf", Except.error "boom"⟩, ⟨"ok.pdf", Except.ok "text"⟩] =
      List.foldl (matchStep zeroOracle "desc" 1 0) ⟨Conn.openConn exDb, [], 0⟩
        [⟨"ok.pdf", Except.ok "text"⟩] :=
  c3_extraction_failure zeroOracle "desc" 1 0 ⟨"bad.pdf", Except.error "boom"⟩
    "boom" [⟨"ok.pdf", Except.ok "text"⟩] ⟨Conn.openConn exDb, [], 0⟩ rfl

/-- Claim C4: every operation preserves referential integrity of
candidates.job_id: the match handler (whatever its arguments), delete_jd,
add_jd and delete_candidate all preserve the invariant, a match request
naming an absent job answers 404 and changes nothing, and delete_jd
removes every candidate row of the job together with the job row itself. -/
theorem c4_invariant_preserved (o : ScoringOracle) (time : Nat) (db : DB)
    (disk : List String) (files : List FileUpload) (jdid : Option Nat)
    (jid jid2 cid : Nat) (title description : String)
    (hinv : Invariant db)
    (hmiss : db.jobs.find? (fun j => j.id == jid2) = none)
    (hfiles : ¬ (files = [] ∨ (files.length = 1 ∧
        files.head?.map FileUpload.filename = some ""))) :
    Invariant (matchEndpoint o time db disk files jdid).db ∧
    Invariant (delete_jd db jid).1 ∧
    Invariant (add_jd db title description) ∧
    Invariant (delete_candidate db cid).1 ∧
    (∀ c ∈ (delete_jd db jid).1.candidates, c.job_id ≠ jid) ∧
    (∀ j ∈ (delete_jd db jid).1.jobs, j.id ≠ jid) ∧
    (matchEndpoint o time db disk files (some jid2)).db = db ∧
    (matchEndpoint o time db disk files (some jid2)).resp =
      MatchResp.notFound "Job description not found" := by
  refine ⟨?_, ?_, ?_, ?_, ?_, ?_, ?_, ?_⟩
  · by_cases hchk : files = [] ∨ (files.length = 1 ∧
        files.head?.map FileUpload.filename = some "")
    · rw [matchEndpoint.eq_def, if_pos hchk]
      exact hinv
    · cases jdid with
      | none =>
        rw [matchEndpoint.eq_def, if_neg hchk]
        exact hinv
      | some jloc =>
        cases hfind : db.jobs.find? (fun j => j.id == jloc) with
        | none =>
          rw [matchEndpoint.eq_def, if_neg hchk]
          simp only [hfind]
          exact hinv
        | some job =>
          rw [matchEndpoint_success o time db disk files jloc job hchk hfind]
          intro c hc
          simp only [List.mem_append] at hc
          rcases hc with hc | hc
          · exact hinv c hc
          · rcases foldl_pending_mem o job.description jloc time files
              ⟨Conn.openConn db, disk, 0⟩ c hc with h0 | h
            · simp [Conn.openConn] at h0
            · refine ⟨job, List.mem_of_find?_eq_some hfind, ?_⟩
              have hjd : job.id = jloc := by
                have hb := List.find?_some hfind
                simpa using hb
              rw [h.1, hjd]
  · intro c hc
    simp only [delete_jd, List.mem_filter, Bool.not_eq_eq_eq_not,
      Bool.not_true] at hc
    obtain ⟨j, hj, hij⟩ := hinv c hc.1
    refine ⟨j, ?_, hij⟩
    simp only [delete_jd, List.mem_filter]
    refine ⟨hj, ?_⟩
    have : c.job_id ≠ jid := by
      intro h
      rw [h] at hc
      simp at hc
    rw [hij]
    simpa using this
  · intro c hc
    obtain ⟨j, hj, hij⟩ := hinv c hc
    exact ⟨j, by simp [add_jd, List.mem_append, hj], hij⟩
  · intro c hc
    have hjobs : (delete_candidate db cid).1.jobs = db.jobs := by
      rcases hfc : db.candidates.find? (fun x => x.id == cid) with _ | x <;>
        simp [delete_candidate, hfc]
    have hc' : c ∈ db.candidates := by
      rcases hfc : db.candidates.find? (fun x => x.id == cid) with _ | x
      · simp only [delete_candidate, hfc, List.mem_filter] at hc
        exact hc.1
      · simp only [delete_candidate, hfc, List.mem_filter] at hc
        exact hc.1
    obtain ⟨j, hj, hij⟩ := hinv c hc'
    exact ⟨j, by rw [hjobs]; exact hj, hij⟩
  · intro c hc
    simp only [delete_jd, List.mem_filter, Bool.not_eq_eq_eq_not,
      Bool.not_true] at hc
    intro h
    rw [h] at hc
    simp at hc
  · intro j hj
    simp only [delete_jd, List.mem_filter, Bool.not_eq_eq_eq_not,
      Bool.not_true] at hj
    intro h
    rw [h] at hj
    simp at hj
  · rw [matchEndpoint.eq_def, if_neg hfiles]
    simp only [hmiss]
  · rw [matchEndpoint.eq_def, if_neg hfiles]
    simp only [hmiss]

/-- Witness for claim C4 at a concrete database, batch and ids. -/
theorem c4_invariant_preserved_witness :
    Invariant (matchEndpoint zeroOracle 0 exDb []
      [⟨"a.pdf", Except.ok "python"⟩] (some 1)).db ∧
    Invariant (delete_jd exDb 1).1 ∧
    Invariant (add_jd exDb "t2" "d2") ∧
    Invariant (delete_candidate exDb 1).1 ∧
    (∀ c ∈ (delete_jd exDb 1).1.candidates, c.job_id ≠ 1) ∧
    (∀ j ∈ (delete_jd exDb 1).1.jobs, j.id ≠ 1) ∧
    (matchEndpoint zeroOracle 0 exDb [] [⟨"a.pdf", Except.ok "python"⟩]
      (some 5)).db = exDb ∧
    (matchEndpoint zeroOracle 0 exDb [] [⟨"a.pdf", Except.ok "python"⟩]
      (some 5)).resp = MatchResp.notFound "Job description not found" :=
  c4_invariant_preserved zeroOracle 0 exDb [] [⟨"a.pdf", Except.ok "python"⟩]
    (some 1) 1 5 1 "t2" "d2" (by intro c hc; simp [exDb] at hc) (by decide)
    (by decide)

/-- Claim C5, as stated, fails on the code: the match handler opens one
implicit sqlite transaction and calls conn.commit only once, on line 176
after the loop. After the first document of a two-document batch is
processed its INSERT has been executed (one staged row) but the committed
table is still empty, and if processing the second document hits an
unhandled failure the connection closes without commit and the committed
table stays empty: the first document's insert is rolled back, while on an
undisturbed run both rows appear. -/
theorem c5_counterexample :
    (List.foldl (matchStep zeroOracle "desc" 1 0) ⟨Conn.openConn exDb, [], 0⟩
        [⟨"a.pdf", Except.ok "alpha"⟩]).conn.pending.length = 1 ∧
    (matchAborted zeroOracle 0 exDb []
        [⟨"a.pdf", Except.ok "alpha"⟩, ⟨"b.pdf", Except.ok "beta"⟩]
        1 "desc" 1).candidates = [] ∧
    (matchEndpoint zeroOracle 0 exDb []
        [⟨"a.pdf", Except.ok "alpha"⟩, ⟨"b.pdf", Except.ok "beta"⟩]
        (some 1)).db.candidates.length = 2 := by decide

/-- Claim C5 (amended): a single transaction spans the whole batch. Every
INSERT is staged on the open connection; a run interrupted by an unhandled
failure after any number of documents leaves the committed database exactly
as it was (all of the batch's inserts are rolled back, including rows for
documents processed before the failure), and an undisturbed run publishes
all staged rows together through the single commit that follows the loop. -/
theorem c5_single_commit (o : ScoringOracle) (time : Nat) (db : DB)
    (disk : List String) (files : List FileUpload) (jid : Nat) (job : Job)
    (jd : String) (k : Nat)
    (hfind : db.jobs.find? (fun j => j.id == jid) = some job) :
    matchAborted o time db disk files jid jd k = db ∧
    (matchEndpoint o time db disk files (some jid)).db.candidates =
      db.candidates ++
        (files.foldl (matchStep o job.description jid time)
          ⟨Conn.openConn db, disk, 0⟩).conn.pending := by
  constructor
  · rw [matchAborted, Conn.closeNoCommit, foldl_committed]
    rfl
  · by_cases hchk : files = [] ∨ (files.length = 1 ∧
        files.head?.map FileUpload.filename = some "")
    · rcases hchk with h | ⟨hlen, hhead⟩
      · subst h
        simp [matchEndpoint, Conn.openConn]
      · obtain ⟨f, rfl⟩ := List.length_eq_one.mp hlen
        simp only [List.head?_cons, Option.map_some'] at hhead
        have hf : f.filename = "" := Option.some.inj hhead
        rw [matchEndpoint.eq_def, if_pos (by simp [hf])]
        simp [List.foldl_cons, matchStep_skip_empty o job.description jid
          time _ f hf, Conn.openConn]
    · rw [matchEndpoint_success o time db disk files jid job hchk hfind]

/-- Witness for the amended claim C5 at a concrete batch. -/
theorem c5_single_commit_witness :
    matchAborted zeroOracle 0 exDb []
      [⟨"a.pdf", Except.ok "alpha"⟩, ⟨"b.pdf", Except.ok "beta"⟩]
      1 "desc" 1 = exDb ∧
    (matchEndpoint zeroOracle 0 exDb []
        [⟨"a.pdf", Except.ok "alpha"⟩, ⟨"b.pdf", Except.ok "beta"⟩]
        (some 1)).db.candidates =
      exDb.candidates ++
        (List.foldl (matchStep zeroOracle (Job.mk 1 "t" "desc").description 1 0)
          ⟨Conn.openConn exDb, [], 0⟩
          [⟨"a.pdf", Except.ok "alpha"⟩, ⟨"b.pdf", Except.ok "beta"⟩]).conn.pending :=
  c5_single_commit zeroOracle 0 exDb []
    [⟨"a.pdf", Except.ok "alpha"⟩, ⟨"b.pdf", Except.ok "beta"⟩] 1
    ⟨1, "t", "desc"⟩ "desc" 1 (by decide)

/-- Claim C6: for every resume text, extract_skills returns exactly the
comma-joined capitalized canonical names of the fixed-vocabulary keywords
that occur as substrings of the lower-cased text: a name is in the matched
set exactly when it is the title-cased form of a vocabulary keyword
contained in the lower-cased text; and whenever the text contains the
substring javascript, the skill Java is included. -/
theorem c6_skill_scan (t name : String) :
    (name ∈ matchedSkills t ↔ ∃ s, s ∈ SKILLS_LIST ∧
        containsStr (pyLower t) s = true ∧ name = pyTitle s) ∧
    extract_skills t = String.intercalate ", " (matchedSkills t) ∧
    (containsStr t "javascript" = true → "Java" ∈ matchedSkills t) := by
  have hiff : ∀ nm, nm ∈ matchedSkills t ↔ ∃ s, s ∈ SKILLS_LIST ∧
      containsStr (pyLower t) s = true ∧ nm = pyTitle s := by
    intro nm
    simp only [matchedSkills, List.mem_map, List.mem_filter]
    constructor
    · rintro ⟨s, ⟨hs, hc⟩, rfl⟩
      exact ⟨s, hs, hc, rfl⟩
    · rintro ⟨s, hs, hc, rfl⟩
      exact ⟨s, ⟨hs, hc⟩, rfl⟩
  refine ⟨hiff name, rfl, ?_⟩
  intro hjs
  have h1 : "javascript".data <:+: t.data := by
    rw [containsStr, decide_eq_true_eq] at hjs
    exact hjs
  have h2 : "javascript".data <:+: (pyLower t).data := by
    have hm := h1.map Char.toLower
    have hfix : "javascript".data.map Char.toLower = "javascript".data := by
      decide
    rw [hfix] at hm
    exact hm
  have h3 : "java".data <:+: (pyLower t).data :=
    List.IsInfix.trans (by decide) h2
  rw [hiff "Java"]
  exact ⟨"java", by decide, decide_eq_true h3, by decide⟩

/-- Witness for claim C6 at a concrete resume text, discharging the
implication of the third conjunct at a text that contains javascript. -/
theorem c6_skill_scan_witness :
    ("Java" ∈ matchedSkills "senior javascript engineer" ↔
      ∃ s, s ∈ SKILLS_LIST ∧
        containsStr (pyLower "senior javascript engineer") s = true ∧
        "Java" = pyTitle s) ∧
    extract_skills "senior javascript engineer" =
      String.intercalate ", " (matchedSkills "senior javascript engineer") ∧
    "Java" ∈ matchedSkills "senior javascript engineer" :=
  ⟨(c6_skill_scan "senior javascript engineer" "Java").1,
   (c6_skill_scan "senior javascript engineer" "Java").2.1,
   (c6_skill_scan "senior javascript engineer" "Java").2.2 (by decide)⟩

/-- Claim C7: the rankings route answers 404 exactly when no job row has
the requested id, and otherwise renders the located job together with its
candidate rows, a permutation of the candidates table filtered to the job,
sorted descending by match_percentage. -/
theorem c7_rankings (db : DB) (jid jid2 : Nat) (job : Job)
    (cs : List Candidate)
    (hpage : view_rankings db jid = RankingsView.page job cs)
    (hmiss : db.jobs.find? (fun j => j.id == jid2) = none) :
    view_rankings db jid2 = RankingsView.notFound ∧
    cs.Pairwise (fun a b => b.match_percentage ≤ a.match_percentage) ∧
    cs.Perm (db.candidates.filter (fun c => c.job_id == jid)) := by
  have hcs : cs = (db.candidates.filter (fun c => c.job_id == jid)).mergeSort
      (fun a b => decide (b.match_percentage ≤ a.match_percentage)) := by
    rcases hfind : db.jobs.find? (fun j => j.id == jid) with _ | j
    · rw [view_rankings, hfind] at hpage
      exact absurd hpage (by simp)
    · rw [view_rankings, hfind] at hpage
      cases hpage
      rfl
  subst hcs
  refine ⟨by rw [view_rankings, hmiss], ?_, List.mergeSort_perm _ _⟩
  have hs := @List.sorted_mergeSort Candidate
    (fun a b => decide (b.match_percentage ≤ a.match_percentage))
    (fun a b c hab hbc => by
      simp only [decide_eq_true_eq] at *
      exact le_trans hbc hab)
    (fun a b => by
      simp only [Bool.or_eq_true, decide_eq_true_eq]
      exact le_total _ _)
    (db.candidates.filter (fun c => c.job_id == jid))
  exact hs.imp (fun h => by simpa using h)

unseal List.merge List.mergeSort in
/-- Witness for claim C7 at a concrete database with two candidates. -/
theorem c7_rankings_witness :
    view_rankings (DB.mk [⟨1, "t", "d"⟩]
        [⟨1, "a.pdf", 10, "", 0, 1⟩, ⟨2, "b.pdf", 50, "", 0, 1⟩] 2 3) 9 =
      RankingsView.notFound ∧
    List.Pairwise (fun a b => b.match_percentage ≤ a.match_percentage)
      [(⟨2, "b.pdf", 50, "", 0, 1⟩ : Candidate), ⟨1, "a.pdf", 10, "", 0, 1⟩] ∧
    List.Perm [(⟨2, "b.pdf", 50, "", 0, 1⟩ : Candidate), ⟨1, "a.pdf", 10, "", 0, 1⟩]
      ((DB.mk [⟨1, "t", "d"⟩]
        [⟨1, "a.pdf", 10, "", 0, 1⟩, ⟨2, "b.pdf", 50, "", 0, 1⟩] 2 3).candidates.filter
          (fun c => c.job_id == 1)) :=
  c7_rankings (DB.mk [⟨1, "t", "d"⟩]
      [⟨1, "a.pdf", 10, "", 0, 1⟩, ⟨2, "b.pdf", 50, "", 0, 1⟩] 2 3) 1 9
    ⟨1, "t", "d"⟩ [⟨2, "b.pdf", 50, "", 0, 1⟩, ⟨1, "a.pdf", 10, "", 0, 1⟩]
    (by decide) (by decide)

/-- Claim C8: an uploaded part with an empty filename is skipped by the
loop without staging a row or incrementing processed_count, yet the
response denominator is the length of the full upload list, so the message
reports fewer processed than submitted even though every non-empty file
parses cleanly. -/
theorem c8_empty_filename_counted (o : ScoringOracle) (time : Nat) (db : DB)
    (disk : List String) (pre post : List FileUpload) (f : FileUpload)
    (jid : Nat) (job : Job) (s : LoopState)
    (hf : f.filename = "")
    (hfind : db.jobs.find? (fun j => j.id == jid) = some job)
    (hpre : pre ≠ [])
    (hclean : ∀ g ∈ pre ++ post, g.filename ≠ "" ∧ cleanParse g = true) :
    matchStep o job.description jid time s f = s ∧
    (matchEndpoint o time db disk (pre ++ f :: post)
        (some jid)).db.candidates.length =
      db.candidates.length + (pre ++ post).length ∧
    (matchEndpoint o time db disk (pre ++ f :: post) (some jid)).resp =
      MatchResp.ok ("Successfully processed " ++
        toString (pre ++ post).length ++ " of " ++
        toString (pre ++ f :: post).length ++ " resumes.") ∧
    (pre ++ post).length < (pre ++ f :: post).length := by
  have hchk : ¬ ((pre ++ f :: post) = [] ∨ ((pre ++ f :: post).length = 1 ∧
      (pre ++ f :: post).head?.map FileUpload.filename = some "")) := by
    rintro (h | ⟨hlen, _⟩)
    · exact (List.append_ne_nil_of_right_ne_nil pre (by simp)) h
    · cases pre with
      | nil => exact hpre rfl
      | cons p ps => simp [List.length_append] at hlen
  have hgoodf : goodFile f = false := by
    simp [goodFile, hf]
  have hgood : ∀ g ∈ pre ++ post, goodFile g = true := by
    intro g hg
    rw [goodFile_eq_cleanParse g (hclean g hg).1]
    exact (hclean g hg).2
  have hcount : (pre ++ f :: post).countP goodFile = (pre ++ post).length := by
    rw [List.countP_append, List.countP_cons, hgoodf]
    simp only [Bool.false_eq_true, if_false, Nat.add_zero]
    have hpre2 : pre.countP goodFile = pre.length :=
      List.countP_eq_length.mpr (fun g hg => hgood g (List.mem_append_left _ hg))
    have hpost2 : post.countP goodFile = post.length :=
      List.countP_eq_length.mpr
        (fun g hg => hgood g (List.mem_append_right _ hg))
    rw [hpre2, hpost2, List.length_append]
  obtain ⟨hproc, hpend⟩ := foldl_counts o job.description jid time
    (pre ++ f :: post) ⟨Conn.openConn db, disk, 0⟩
  have hp2 : ((pre ++ f :: post).foldl (matchStep o job.description jid time)
      ⟨Conn.openConn db, disk, 0⟩).conn.pending.length = (pre ++ post).length := by
    rw [hpend, hcount]
    simp [Conn.openConn]
  have hp3 : ((pre ++ f :: post).foldl (matchStep o job.description jid time)
      ⟨Conn.openConn db, disk, 0⟩).processed = (pre ++ post).length := by
    rw [hproc, hcount]
    simp
  refine ⟨matchStep_skip_empty o job.description jid time s f hf, ?_, ?_, ?_⟩
  · rw [matchEndpoint_success o time db disk (pre ++ f :: post) jid job
      hchk hfind]
    show (db.candidates ++
        ((pre ++ f :: post).foldl (matchStep o job.description jid time)
          ⟨Conn.openConn db, disk, 0⟩).conn.pending).length =
      db.candidates.length + (pre ++ post).length
    rw [List.length_append, hp2]
  · rw [matchEndpoint_success o time db disk (pre ++ f :: post) jid job
      hchk hfind]
    show MatchResp.ok ("Successfully processed " ++
        toString (((pre ++ f :: post).foldl
          (matchStep o job.description jid time)
          ⟨Conn.openConn db, disk, 0⟩).processed) ++ " of " ++
        toString (pre ++ f :: post).length ++ " resumes.") =
      MatchResp.ok ("Successfully processed " ++
        toString (pre ++ post).length ++ " of " ++
        toString (pre ++ f :: post).length ++ " resumes.")
    rw [hp3]
  · simp [List.length_append]

/-- Witness for claim C8: one clean resume plus one empty-filename part
yields the message 1 of 2. -/
theorem c8_empty_filename_counted_witness :
    matchStep zeroOracle (Job.mk 1 "t" "desc").description 1 0
      ⟨Conn.openConn exDb, [], 0⟩ ⟨"", Except.ok ""⟩ =
      ⟨Conn.openConn exDb, [], 0⟩ ∧
    (matchEndpoint zeroOracle 0 exDb []
        ([(⟨"a.pdf", Except.ok "python"⟩ : FileUpload)] ++
          (⟨"", Except.ok ""⟩ : FileUpload) :: [])
        (some 1)).db.candidates.length =
      exDb.candidates.length +
        ([(⟨"a.pdf", Except.ok "python"⟩ : FileUpload)] ++ []).length ∧
    (matchEndpoint zeroOracle 0 exDb []
        ([(⟨"a.pdf", Except.ok "python"⟩ : FileUpload)] ++
          (⟨"", Except.ok ""⟩ : FileUpload) :: [])
        (some 1)).resp =
      MatchResp.ok ("Successfully processed " ++
        toString ([(⟨"a.pdf", Except.ok "python"⟩ : FileUpload)] ++ []).length ++
        " of " ++
        toString ([(⟨"a.pdf", Except.ok "python"⟩ : FileUpload)] ++
          (⟨"", Except.ok ""⟩ : FileUpload) :: []).length ++ " resumes.") ∧
    ([(⟨"a.pdf", Except.ok "python"⟩ : FileUpload)] ++ []).length <
      ([(⟨"a.pdf", Except.ok "python"⟩ : FileUpload)] ++
        (⟨"", Except.ok ""⟩ : FileUpload) :: []).length :=
  c8_empty_filename_counted zeroOracle 0 exDb []
    [⟨"a.pdf", Except.ok "python"⟩] [] ⟨"", Except.ok ""⟩ 1 ⟨1, "t", "desc"⟩
    ⟨Conn.openConn exDb, [], 0⟩ rfl (by decide) (by decide) (by decide)

/-- Claim C9: deleting a job id that has no job row succeeds with the
redirect to the job list and, in any database satisfying the
referential-integrity invariant, changes neither table: there is no
candidate row carrying such a job_id for the first DELETE to remove, and
no job row for the second. -/
theorem c9_delete_missing_job (db : DB) (jid : Nat)
    (hinv : Invariant db)
    (hmiss : db.jobs.find? (fun j => j.id == jid) = none) :
    delete_jd db jid = (db, Redirect.toIndex) := by
  have hjobs : ∀ j ∈ db.jobs, (j.id == jid) = false := by
    intro j hj
    have := List.find?_eq_none.mp hmiss j hj
    simpa using this
  have hjf : db.jobs.filter (fun j => !(j.id == jid)) = db.jobs :=
    List.filter_eq_self.mpr (fun j hj => by rw [hjobs j hj]; rfl)
  have hcf : db.candidates.filter (fun c => !(c.job_id == jid)) =
      db.candidates :=
    List.filter_eq_self.mpr (fun c hc => by
      obtain ⟨j, hj, hij⟩ := hinv c hc
      have hne : c.job_id ≠ jid := by
        intro h
        have := hjobs j hj
        rw [hij, h] at this
        simp at this
      simpa using hne)
  rw [delete_jd, hjf, hcf]

/-- Witness for claim C9 at a concrete database and absent job id. -/
theorem c9_delete_missing_job_witness :
    delete_jd (DB.mk [⟨1, "t", "d"⟩] [⟨1, "a.pdf", 50, "", 0, 1⟩] 2 2) 7 =
      (DB.mk [⟨1, "t", "d"⟩] [⟨1, "a.pdf", 50, "", 0, 1⟩] 2 2,
        Redirect.toIndex) :=
  c9_delete_missing_job (DB.mk [⟨1, "t", "d"⟩] [⟨1, "a.pdf", 50, "", 0, 1⟩] 2 2)
    7 (by unfold Invariant; decide) (by decide)

/-- Claim C10: the job list page always shows the stored job descriptions
sorted ascending by title: the rendered list is a permutation of the table
sorted by title, and on a concrete table whose insertion and id order
disagrees with the title order the rendered list differs from the stored
order. -/
theorem c10_index_sorted (db : DB) :
    (index db).Pairwise (fun a b => a.title ≤ b.title) ∧
    (index db).Perm db.jobs ∧
    index (DB.mk [⟨1, "zeta", "d1"⟩, ⟨2, "alpha", "d2"⟩] [] 3 0) ≠
      [⟨1, "zeta", "d1"⟩, ⟨2, "alpha", "d2"⟩] := by
  have hpair : ∀ d : DB, (index d).Pairwise (fun a b => a.title ≤ b.title) := by
    intro d
    have hs := @List.sorted_mergeSort Job
      (fun a b => decide (a.title ≤ b.title))
      (fun a b c hab hbc => by
        simp only [decide_eq_true_eq] at *
        exact le_trans hab hbc)
      (fun a b => by
        simp only [Bool.or_eq_true, decide_eq_true_eq]
        exact le_total _ _)
      d.jobs
    exact hs.imp (fun h => by simpa using h)
  refine ⟨hpair db, List.mergeSort_perm _ _, ?_⟩
  intro h
  have hp := hpair (DB.mk [⟨1, "zeta", "d1"⟩, ⟨2, "alpha", "d2"⟩] [] 3 0)
  rw [h] at hp
  have hle : ("zeta" : String) ≤ "alpha" :=
    (List.pairwise_cons.mp hp).1 _ (List.mem_singleton_self _)
  revert hle
  rw [String.le_iff_toList_le]
  decide

end ResumeScreener
